import Mathlib

/-!
Shallow embedding of the mnemos user/kernel mailbox
(`src/oaiu/mstd/src/executor/mailbox.rs`) and proofs about its
`send` / `poll` protocol.

Modelling conventions:
* machine integers are `Nat` with explicit `% 2^32` where wraparound matters;
* a byte is a `Nat`; a frame is a `List Nat`;
* the ring transport (`abi::bbqueue_ipc::framed`) is not under `src/`;
  it is modelled from the spec's producer/consumer contract (spec section 6):
  `grant(max_size)` succeeds iff the ring has room, exposing a window of the
  requested size; `commit(n)` finalizes exactly `n` bytes as one frame;
  a grant dropped without commit leaves the ring unchanged;
* `postcard` (de)serialization of payloads is external and is kept abstract:
  an encoding function `enc : Req -> List Nat` (serialization into a buffer
  succeeds iff the encoding fits) and a decoder
  `dec : List Nat -> Option (RResult Resp)`;
* the response table is `heapless::LinearMap<u32, _, 32>`, modelled after
  that crate: `insert` replaces the value in place when the key is present,
  pushes when there is room, errors when full; `remove` is a `swap_remove`;
* the `assert!(msg.len() >= 4)` in `poll` is a panic; panicking executions
  are modelled as `none`;
* the two `maitake` wait queues are broadcast queues; wake-ups are modelled
  as boolean outputs of `poll` (`wokeRecv`, `wokeSend`).
-/

namespace Mailbox

/-- `Result<T, ()>` from the Rust source (`Result<SysCallSuccess, ()>`). -/
inductive RResult (T : Type) where
  | ok (t : T)
  | err
  deriving DecidableEq, Repr

/-- `u32::to_le_bytes`: the little-endian bytes of a 32-bit value. -/
def toLeBytes (n : Nat) : List Nat :=
  [n % 256, n / 256 % 256, n / 256 / 256 % 256, n / 256 / 256 / 256 % 256]

/-- `u32::from_le_bytes` applied to a 4-byte slice (`poll` lines 85-87). -/
def fromLeBytes (l : List Nat) : Nat :=
  match l with
  | [a, b, c, d] => a + 256 * b + 65536 * c + 16777216 * d
  | _ => 0

/-!
## The response table

`heapless::LinearMap<u32, Result<SysCallSuccess, ()>, 32>`: a linear scan
over a fixed-capacity vector of key/value pairs.  `insert` replaces the
value in place when the key is present (in which case it succeeds even at
capacity), pushes a new pair when there is room, and fails when the map is
full; `remove` does a `swap_remove` of the matching slot.
-/

/-- The backing store of `heapless::LinearMap<u32, V, 32>`. -/
abbrev LinearMap (V : Type) := List (Nat × V)

/-- `LinearMap::get`: first pair whose key matches. -/
def lmGet {V : Type} (m : LinearMap V) (k : Nat) : Option V :=
  match m with
  | [] => none
  | (k', v) :: rest => if k' = k then some v else lmGet rest k

/-- In-place value replacement at the first occurrence of `k` (the
`get_mut` + `mem::replace` path of `LinearMap::insert`). -/
def lmReplace {V : Type} (m : LinearMap V) (k : Nat) (v : V) : LinearMap V :=
  match m with
  | [] => []
  | (k', v') :: rest =>
      if k' = k then (k', v) :: rest else (k', v') :: lmReplace rest k v

/-- `LinearMap::insert` with capacity 32: replace if present, push if room,
`none` (error) if full and absent. -/
def lmInsert {V : Type} (m : LinearMap V) (k : Nat) (v : V) :
    Option (LinearMap V) :=
  if (lmGet m k).isSome then some (lmReplace m k v)
  else if m.length < 32 then some (m ++ [(k, v)])
  else none

/-- `recv.insert(nonce, dec_msg).ok()`: the insert's error is discarded and
the map is left unchanged when the insert fails. -/
def lmInsertOk {V : Type} (m : LinearMap V) (k : Nat) (v : V) : LinearMap V :=
  match lmInsert m k v with
  | some m' => m'
  | none => m

/-- Index of the first pair whose key is `k`. -/
def lmIndexOf {V : Type} (m : LinearMap V) (k : Nat) : Option Nat :=
  match m with
  | [] => none
  | (k', _) :: rest =>
      if k' = k then some 0 else (lmIndexOf rest k).map (· + 1)

/-- `Vec::swap_remove i`: the last element is moved into slot `i` and the
length shrinks by one. -/
def swapRemoveAt {V : Type} (m : List (Nat × V)) (i : Nat) :
    List (Nat × V) :=
  match m.getLast? with
  | none => m
  | some last => (m.set i last).dropLast

/-- `LinearMap::remove`: find the slot for `k`, `swap_remove` it and return
its value. -/
def lmRemove {V : Type} (m : LinearMap V) (k : Nat) :
    Option V × LinearMap V :=
  match lmIndexOf m k with
  | none => (none, m)
  | some i => (lmGet m k, swapRemoveAt m i)

/-- The keys currently stored in the table. -/
def lmKeys {V : Type} (m : LinearMap V) : List Nat := m.map Prod.fst

/-!
## The ring transport

Modelled from the spec: the `abi::bbqueue_ipc::framed` transport is not under
`src/`; section 6 of the spec gives its producer/consumer contract.  The
outbound producer is a bounded byte budget plus the list of committed frames:
`grant(n)` succeeds iff `n` more bytes fit, exposing a window of exactly the
requested size (4 bytes of id prefix + 124 bytes of payload space for the
`grant(128)` calls in `send` and `poll`); `commit(n)` finalizes exactly `n`
bytes as one frame; a grant dropped without commit (the probe in `poll`, the
serialization-error path in `send`) leaves the ring unchanged.  The inbound
consumer is the list of frames not yet read, in arrival order: `read` yields
the front frame if any, `release` consumes it.
-/

/-- Outbound ring (`FrameProducer`): capacity, bytes used, committed frames. -/
structure FrameProducer where
  cap : Nat
  used : Nat
  frames : List (List Nat)
  deriving DecidableEq, Repr

/-- `grant(n).is_ok()`: the ring has room for an `n`-byte window. -/
def grantOk (p : FrameProducer) (n : Nat) : Bool :=
  p.used + n ≤ p.cap

/-- `commit(f.len())` on a write grant holding frame `f`. -/
def commitFrame (p : FrameProducer) (f : List Nat) : FrameProducer :=
  { p with used := p.used + f.length, frames := p.frames ++ [f] }

/-- State of the initialized `MAILBOX` (after `set_rings`): the atomic nonce
counter, the `inhibit_send` flag, the response table, and the two rings
(`u2k` outbound producer, `k2u` inbound consumer as its pending frames). -/
structure SysState (Resp : Type) where
  nonce : Nat
  inhibit_send : Bool
  received : LinearMap (RResult Resp)
  u2k : FrameProducer
  k2u : List (List Nat)
  deriving DecidableEq, Repr

/-- Outcome of one `poll` call: the new state plus whether `recv_wait` /
`send_wait` were woken (`wake_all`). -/
structure PollResult (Resp : Type) where
  state : SysState Resp
  wokeRecv : Bool
  wokeSend : Bool
  deriving DecidableEq, Repr

/-- The 'process loop of `poll` (lines 79-106): drain the inbound ring while
the table is below capacity.  Each frame is split at 4, its id decoded as
little-endian, its payload decoded; on decode success the result is inserted
(the insert error discarded), on decode failure the frame is just released;
either way draining continues.  A frame shorter than 4 bytes trips
`assert!(msg.len() >= 4)`: the panic is modelled as `none`.  Returns the
final table, the frames left unread, and the `any` flag. -/
def drain {Resp : Type} (dec : List Nat → Option (RResult Resp)) :
    List (List Nat) → LinearMap (RResult Resp) → Bool →
    Option (LinearMap (RResult Resp) × List (List Nat) × Bool)
  | inbound, recv, any =>
    if recv.length < 32 then
      match inbound with
      | [] => some (recv, [], any)
      | msg :: rest =>
        if 4 ≤ msg.length then
          match dec (msg.drop 4) with
          | some r =>
              drain dec rest (lmInsertOk recv (fromLeBytes (msg.take 4)) r)
                true
          | none => drain dec rest recv any
        else none
    else some (recv, inbound, any)

/-- `MailBox::poll` (lines 73-116): drain the inbound ring, wake `recv_wait`
iff any frame decoded, then—if `inhibit_send` is set and a 128-byte grant
probe on the outbound ring succeeds—clear the flag and wake `send_wait`.
`none` models the `assert!` panic on a short frame. -/
def poll {Resp : Type} (dec : List Nat → Option (RResult Resp))
    (s : SysState Resp) : Option (PollResult Resp) :=
  match drain dec s.k2u s.received false with
  | none => none
  | some (recv, k2u, any) =>
      let probe := s.inhibit_send && grantOk s.u2k 128
      some
        { state :=
            { s with
              received := recv
              k2u := k2u
              inhibit_send := s.inhibit_send && !grantOk s.u2k 128 }
          wokeRecv := any
          wokeSend := probe }

/-- `let nonce = self.nonce.fetch_add(1, Ordering::AcqRel)` (line 119): the
call's CorrelationId is the old counter value; the counter wraps at 2^32. -/
def sendBegin {Resp : Type} (s : SysState Resp) : Nat × SysState Resp :=
  (s.nonce, { s with nonce := (s.nonce + 1) % 4294967296 })

/-- The id issued by the `k`-th `send` call starting from state `s`. -/
def issuedNonce {Resp : Type} (s : SysState Resp) : Nat → Nat
  | 0 => (sendBegin s).1
  | k + 1 => issuedNonce (sendBegin s).2 k

/-- Outcome of one iteration of the send-phase loop of `MailBox::send`. -/
inductive SendPhase (Resp : Type) where
  | committed (s : SysState Resp)
  | encodeErr (s : SysState Resp)
  | suspended (s : SysState Resp)
  deriving DecidableEq, Repr

/-- One iteration of the send-phase loop (lines 123-141): if `inhibit_send`
is clear, try `grant(128)`; on success write the 4-byte little-endian id,
serialize the request into the remaining 124 bytes (`postcard::to_slice`
fails iff the encoding does not fit) and commit `4 + used` bytes
(`committed`); a serialization error is returned through `?` without any
commit (`encodeErr`); on grant failure set `inhibit_send` and fall through to
`send_wait.wait()` (`suspended`), as also happens when the flag was already
set. -/
def sendAttempt {Req Resp : Type} (enc : Req → List Nat) (nonce : Nat)
    (msg : Req) (s : SysState Resp) : SendPhase Resp :=
  if s.inhibit_send = false then
    if grantOk s.u2k 128 then
      if (enc msg).length ≤ 124 then
        .committed
          { s with u2k := commitFrame s.u2k (toLeBytes nonce ++ enc msg) }
      else .encodeErr s
    else .suspended { s with inhibit_send := true }
  else .suspended s

/-- One iteration of the receive-phase loop (lines 144-156): after a
`recv_wait` wake-up, `remove(&nonce)` on the response table; `some` resolves
the `send` future with that value, `none` loops. -/
def recvStep {Resp : Type} (nonce : Nat) (s : SysState Resp) :
    Option (RResult Resp) × SysState Resp :=
  ((lmRemove s.received nonce).1,
   { s with received := (lmRemove s.received nonce).2 })

/-!
## A concrete instantiation for witnesses and counterexamples

The payload codec is external (`postcard` over `abi` types); the concrete
decoder below stands in for it when a theorem is evaluated on explicit
inputs: `[0, b]` decodes to `Ok(b)`, `[1]` to `Err(())`, everything else is
a decode failure.
-/

/-- A concrete test decoder over `Resp := Nat`. -/
def decTest : List Nat → Option (RResult Nat)
  | [0, b] => some (.ok b)
  | [1] => some .err
  | _ => none

/-- A concrete test encoder: the request is already its own byte encoding. -/
def encTest : List Nat → List Nat := fun l => l

/-- An outbound ring with plenty of room: a 128-byte grant succeeds. -/
def ringFree : FrameProducer := { cap := 256, used := 0, frames := [] }

/-- An exhausted outbound ring: a 128-byte grant fails. -/
def ringFull : FrameProducer := { cap := 64, used := 64, frames := [] }

/-- A quiescent initialized mailbox over the test instantiation. -/
def sBase : SysState Nat :=
  { nonce := 0
    inhibit_send := false
    received := []
    u2k := ringFree
    k2u := [] }

/-- A request whose encoding (125 bytes) exceeds the 124 payload bytes of a
128-byte grant. -/
def bigReq : List Nat := List.replicate 125 0

/-- Mailbox with one inbound frame: id 7, payload decoding to `Ok(9)`. -/
def sC1 : SysState Nat := { sBase with k2u := [[7, 0, 0, 0, 0, 9]] }

/-- The result of `poll` on `sC1`. -/
def prC1 : PollResult Nat :=
  { state := { sBase with received := [(7, RResult.ok 9)] }
    wokeRecv := true
    wokeSend := false }

/-- Mailbox with one inbound frame of a single byte (shorter than the
4-byte id prefix). -/
def sC2short : SysState Nat := { sBase with k2u := [[0]] }

/-- A response table filled to its capacity of 32. -/
def recv32 : LinearMap (RResult Nat) :=
  (List.range 32).map fun i => (i, RResult.ok i)

/-- Mailbox whose table is at capacity while an inbound frame waits. -/
def sC3 : SysState Nat :=
  { sBase with received := recv32, k2u := [[77, 0, 0, 0, 0, 9]] }

/-- The result of `poll` on `sC3`: nothing drained, nobody woken. -/
def prC3 : PollResult Nat :=
  { state := sC3, wokeRecv := false, wokeSend := false }

/-- Mailbox holding a response for id 5 while a second frame for id 5
(decoding to `Ok(2)`) waits inbound. -/
def sC4 : SysState Nat :=
  { sBase with received := [(5, RResult.ok 1)], k2u := [[5, 0, 0, 0, 0, 2]] }

/-- The result of `poll` on `sC4`: the duplicate overwrote the entry. -/
def prC4 : PollResult Nat :=
  { state := { sBase with received := [(5, RResult.ok 2)] }
    wokeRecv := true
    wokeSend := false }

/-- Mailbox with an empty inbound ring but `inhibit_send` set while the
outbound ring has room. -/
def sC5 : SysState Nat := { sBase with inhibit_send := true }

/-- The result of `poll` on `sC5`: the flag is cleared and `send_wait` is
woken even though the inbound ring was empty. -/
def prC5 : PollResult Nat :=
  { state := sBase, wokeRecv := false, wokeSend := true }

/-- The state after sending request `[0, 9]` with id 7 from `sBase`: the
outbound ring holds the committed 6-byte frame. -/
def sC8 : SysState Nat :=
  { sBase with u2k := { cap := 256, used := 6, frames := [[7, 0, 0, 0, 0, 9]] } }

/-! ## Byte-encoding lemmas -/

theorem toLeBytes_length (n : Nat) : (toLeBytes n).length = 4 := rfl

theorem fromLeBytes_toLeBytes (n : Nat) (h : n < 4294967296) :
    fromLeBytes (toLeBytes n) = n := by
  simp only [toLeBytes, fromLeBytes]
  omega

/-! ## Response-table lemmas -/

theorem lmIndexOf_eq_none {V : Type} (m : LinearMap V) (k : Nat)
    (h : lmIndexOf m k = none) : lmGet m k = none := by
  induction m with
  | nil => rfl
  | cons p rest ih =>
      obtain ⟨k', v⟩ := p
      simp only [lmIndexOf] at h
      by_cases hk : k' = k
      · simp [hk] at h
      · simp only [if_neg hk] at h
        cases hx : lmIndexOf rest k with
        | none => simp [lmGet, hk, ih hx]
        | some j => simp [hx] at h

theorem lmRemove_fst {V : Type} (m : LinearMap V) (k : Nat) :
    (lmRemove m k).1 = lmGet m k := by
  unfold lmRemove
  cases h : lmIndexOf m k with
  | none => simp [lmIndexOf_eq_none m k h]
  | some i => rfl

theorem lmGet_lmReplace_self {V : Type} (m : LinearMap V) (k : Nat) (v : V)
    (h : (lmGet m k).isSome) : lmGet (lmReplace m k v) k = some v := by
  induction m with
  | nil => simp [lmGet] at h
  | cons p rest ih =>
      obtain ⟨k', v'⟩ := p
      by_cases hk : k' = k
      · simp [lmReplace, lmGet, hk]
      · simp only [lmGet, hk, if_neg hk] at h
        simp [lmReplace, lmGet, hk, ih h]

theorem lmGet_lmReplace_ne {V : Type} (m : LinearMap V) (k n : Nat) (v : V)
    (h : n ≠ k) : lmGet (lmReplace m k v) n = lmGet m n := by
  induction m with
  | nil => rfl
  | cons p rest ih =>
      obtain ⟨k', v'⟩ := p
      by_cases hk : k' = k
      · simp [lmReplace, lmGet, hk,
          show ¬k = n from fun hh => h hh.symm]
      · simp [lmReplace, lmGet, hk, ih]

theorem lmReplace_length {V : Type} (m : LinearMap V) (k : Nat) (v : V) :
    (lmReplace m k v).length = m.length := by
  induction m with
  | nil => rfl
  | cons p rest ih =>
      obtain ⟨k', v'⟩ := p
      by_cases hk : k' = k
      · simp [lmReplace, hk]
      · simp [lmReplace, hk, ih]

theorem lmGet_append_single {V : Type} (m : LinearMap V) (k n : Nat) (v : V) :
    lmGet (m ++ [(k, v)]) n =
      match lmGet m n with
      | some w => some w
      | none => if k = n then some v else none := by
  induction m with
  | nil => simp [lmGet]
  | cons p rest ih =>
      obtain ⟨k', v'⟩ := p
      by_cases hk : k' = n
      · simp [lmGet, hk]
      · simp [lmGet, hk, ih]

theorem lmInsertOk_eq {V : Type} (m : LinearMap V) (k : Nat) (v : V) :
    lmInsertOk m k v =
      if (lmGet m k).isSome then lmReplace m k v
      else if m.length < 32 then m ++ [(k, v)] else m := by
  unfold lmInsertOk lmInsert
  by_cases hp : (lmGet m k).isSome <;> by_cases hl : m.length < 32 <;>
    simp [hp, hl]

theorem lmInsertOk_length_le {V : Type} (m : LinearMap V) (k : Nat)
    (v : V) : (lmInsertOk m k v).length ≤ m.length + 1 := by
  rw [lmInsertOk_eq]
  by_cases hp : (lmGet m k).isSome
  · simp [hp, lmReplace_length]
  · by_cases hl : m.length < 32 <;> simp [hp, hl]

theorem lmGet_lmInsertOk {V : Type} (m : LinearMap V) (k n : Nat)
    (v w : V) (h : lmGet (lmInsertOk m k v) n = some w) :
    (n = k ∧ w = v) ∨ lmGet m n = some w := by
  rw [lmInsertOk_eq] at h
  by_cases hp : (lmGet m k).isSome
  · rw [if_pos hp] at h
    by_cases hn : n = k
    · subst hn
      rw [lmGet_lmReplace_self m n v hp] at h
      exact Or.inl ⟨rfl, (Option.some_inj.mp h).symm⟩
    · rw [lmGet_lmReplace_ne m k n v hn] at h
      exact Or.inr h
  · rw [if_neg hp] at h
    by_cases hl : m.length < 32
    · rw [if_pos hl, lmGet_append_single] at h
      cases hg : lmGet m n with
      | some w' => rw [hg] at h; exact Or.inr h
      | none =>
          rw [hg] at h
          by_cases hk : k = n
          · rw [if_pos hk] at h
            exact Or.inl ⟨hk.symm, (Option.some_inj.mp h).symm⟩
          · simp [hk] at h
    · rw [if_neg hl] at h
      exact Or.inr h

/-! ## Drain-loop lemmas -/

theorem drain_nil {Resp : Type} (dec : List Nat → Option (RResult Resp))
    (recv : LinearMap (RResult Resp)) (any : Bool) :
    drain dec [] recv any = some (recv, [], any) := by
  unfold drain
  split <;> rfl

theorem drain_cons {Resp : Type} (dec : List Nat → Option (RResult Resp))
    (msg : List Nat) (rest : List (List Nat))
    (recv : LinearMap (RResult Resp)) (any : Bool)
    (h : recv.length < 32) (hlen : 4 ≤ msg.length) :
    drain dec (msg :: rest) recv any =
      match dec (msg.drop 4) with
      | some r =>
          drain dec rest (lmInsertOk recv (fromLeBytes (msg.take 4)) r) true
      | none => drain dec rest recv any := by
  conv_lhs => unfold drain
  simp [h, hlen]

theorem drain_cons_short {Resp : Type}
    (dec : List Nat → Option (RResult Resp)) (msg : List Nat)
    (rest : List (List Nat)) (recv : LinearMap (RResult Resp)) (any : Bool)
    (h : recv.length < 32) (hlen : ¬4 ≤ msg.length) :
    drain dec (msg :: rest) recv any = none := by
  conv_lhs => unfold drain
  simp [h, hlen]

theorem drain_at_capacity {Resp : Type}
    (dec : List Nat → Option (RResult Resp)) (inbound : List (List Nat))
    (recv : LinearMap (RResult Resp)) (any : Bool)
    (h : ¬recv.length < 32) :
    drain dec inbound recv any = some (recv, inbound, any) := by
  conv_lhs => unfold drain
  cases inbound <;> simp [h]

/-- Every frame of `inbound` is at least 4 bytes long, so the `assert!` in
`poll` never fires: the drain loop completes without panicking. -/
theorem drain_isSome {Resp : Type} (dec : List Nat → Option (RResult Resp)) :
    ∀ (inbound : List (List Nat)) (recv : LinearMap (RResult Resp))
      (any : Bool), (∀ f ∈ inbound, 4 ≤ f.length) →
      (drain dec inbound recv any).isSome
  | [], recv, any, _ => by rw [drain_nil]; rfl
  | msg :: rest, recv, any, h => by
      by_cases hlt : recv.length < 32
      · rw [drain_cons dec msg rest recv any hlt (h msg (by simp))]
        cases dec (msg.drop 4) with
        | some r =>
            exact drain_isSome dec rest _ true
              (fun f hf => h f (List.mem_cons_of_mem _ hf))
        | none =>
            exact drain_isSome dec rest recv any
              (fun f hf => h f (List.mem_cons_of_mem _ hf))
      · rw [drain_at_capacity dec _ recv any hlt]; rfl

/-- The drain loop keeps the table within its capacity of 32. -/
theorem drain_length_le {Resp : Type}
    (dec : List Nat → Option (RResult Resp)) :
    ∀ (inbound : List (List Nat)) (recv : LinearMap (RResult Resp))
      (any : Bool)
      (out : LinearMap (RResult Resp) × List (List Nat) × Bool),
      recv.length ≤ 32 → drain dec inbound recv any = some out →
      out.1.length ≤ 32
  | [], recv, any, out, hle, h => by
      rw [drain_nil] at h
      cases h; exact hle
  | msg :: rest, recv, any, out, hle, h => by
      by_cases hlt : recv.length < 32
      · by_cases hlen : 4 ≤ msg.length
        · rw [drain_cons dec msg rest recv any hlt hlen] at h
          cases hd : dec (msg.drop 4) with
          | some r =>
              rw [hd] at h
              exact drain_length_le dec rest _ true out
                (Nat.le_trans (lmInsertOk_length_le recv _ r) hlt) h
          | none =>
              rw [hd] at h
              exact drain_length_le dec rest recv any out hle h
        · rw [drain_cons_short dec msg rest recv any hlt hlen] at h
          cases h
      · rw [drain_at_capacity dec _ recv any hlt] at h
        cases h; exact hle

/-- Provenance of table entries: any binding present after a drain was
either already in the table or decoded from an inbound frame carrying
exactly that id in its 4-byte prefix. -/
theorem drain_provenance {Resp : Type}
    (dec : List Nat → Option (RResult Resp)) :
    ∀ (inbound : List (List Nat)) (recv : LinearMap (RResult Resp))
      (any : Bool)
      (out : LinearMap (RResult Resp) × List (List Nat) × Bool)
      (n : Nat) (v : RResult Resp),
      drain dec inbound recv any = some out → lmGet out.1 n = some v →
      lmGet recv n = some v ∨
        ∃ f ∈ inbound, 4 ≤ f.length ∧ fromLeBytes (f.take 4) = n ∧
          dec (f.drop 4) = some v
  | [], recv, any, out, n, v, h, hget => by
      rw [drain_nil] at h
      cases h; exact Or.inl hget
  | msg :: rest, recv, any, out, n, v, h, hget => by
      by_cases hlt : recv.length < 32
      · by_cases hlen : 4 ≤ msg.length
        · rw [drain_cons dec msg rest recv any hlt hlen] at h
          cases hd : dec (msg.drop 4) with
          | some r =>
              rw [hd] at h
              rcases drain_provenance dec rest _ true out n v h hget with
                hin | ⟨f, hf, hfl, hfn, hfd⟩
              · rcases lmGet_lmInsertOk recv _ n r v hin with ⟨hn, hv⟩ | hold
                · exact Or.inr ⟨msg, by simp, hlen, hn.symm, by rw [hd, hv]⟩
                · exact Or.inl hold
              · exact Or.inr ⟨f, List.mem_cons_of_mem _ hf, hfl, hfn, hfd⟩
          | none =>
              rw [hd] at h
              rcases drain_provenance dec rest recv any out n v h hget with
                hin | ⟨f, hf, hfl, hfn, hfd⟩
              · exact Or.inl hin
              · exact Or.inr ⟨f, List.mem_cons_of_mem _ hf, hfl, hfn, hfd⟩
        · rw [drain_cons_short dec msg rest recv any hlt hlen] at h
          cases h
      · rw [drain_at_capacity dec _ recv any hlt] at h
        cases h; exact Or.inl hget

/-! ## Further shared lemmas -/

theorem poll_eq_none {Resp : Type} (dec : List Nat → Option (RResult Resp))
    (s : SysState Resp)
    (hd : drain dec s.k2u s.received false = none) : poll dec s = none := by
  unfold poll
  rw [hd]

theorem poll_eq_some {Resp : Type} (dec : List Nat → Option (RResult Resp))
    (s : SysState Resp) (recv : LinearMap (RResult Resp))
    (k2u : List (List Nat)) (any : Bool)
    (hd : drain dec s.k2u s.received false = some (recv, k2u, any)) :
    poll dec s =
      some
        { state :=
            { s with
              received := recv
              k2u := k2u
              inhibit_send := s.inhibit_send && !grantOk s.u2k 128 }
          wokeRecv := any
          wokeSend := s.inhibit_send && grantOk s.u2k 128 } := by
  unfold poll
  rw [hd]

theorem lmRemove_length {V : Type} (m : LinearMap V) (k : Nat)
    (h : (lmGet m k).isSome) : (lmRemove m k).2.length + 1 = m.length := by
  cases m with
  | nil => simp [lmGet] at h
  | cons p rest =>
      unfold lmRemove
      cases hi : lmIndexOf (p :: rest) k with
      | none =>
          rw [lmIndexOf_eq_none _ k hi] at h
          simp at h
      | some i =>
          simp only
          unfold swapRemoveAt
          cases hl : (p :: rest).getLast? with
          | none => simp at hl
          | some last => simp

theorem lmKeys_lmReplace {V : Type} (m : LinearMap V) (k : Nat) (v : V) :
    lmKeys (lmReplace m k v) = lmKeys m := by
  induction m with
  | nil => rfl
  | cons p rest ih =>
      obtain ⟨k', v'⟩ := p
      by_cases hk : k' = k
      · simp [lmReplace, lmKeys, hk]
      · simp only [lmReplace, if_neg hk]
        simp only [lmKeys, List.map_cons] at ih ⊢
        rw [ih]

theorem issuedNonce_formula {Resp : Type} :
    ∀ (k : Nat) (s : SysState Resp), s.nonce < 4294967296 →
      issuedNonce s k = (s.nonce + k) % 4294967296
  | 0, s, hn => by
      unfold issuedNonce sendBegin
      omega
  | k + 1, s, hn => by
      have h2 : (sendBegin s).2.nonce = (s.nonce + 1) % 4294967296 := rfl
      unfold issuedNonce
      rw [issuedNonce_formula k (sendBegin s).2 (by rw [h2]; omega), h2]
      omega

/-! ## The claims -/

set_option maxRecDepth 8000

/-- C1: id-correlation integrity.  If a `send` call's receive phase resolves
with value `v` for its own CorrelationId `nonce` after a `poll`, then `v` is
exactly the entry the response table held under `nonce`; and that entry
either predates the poll or was decoded by the poll from an inbound frame
whose own 4-byte little-endian prefix is exactly `nonce` — never from a
frame carrying any other id. -/
theorem c1_id_correlation {Resp : Type}
    (dec : List Nat → Option (RResult Resp)) (s : SysState Resp)
    (pr : PollResult Resp) (nonce : Nat) (v : RResult Resp)
    (hp : poll dec s = some pr)
    (hr : (recvStep nonce pr.state).1 = some v) :
    lmGet pr.state.received nonce = some v ∧
      (lmGet s.received nonce = some v ∨
        ∃ f ∈ s.k2u, 4 ≤ f.length ∧ fromLeBytes (f.take 4) = nonce ∧
          dec (f.drop 4) = some v) := by
  have h1 : lmGet pr.state.received nonce = some v := by
    rw [← lmRemove_fst pr.state.received nonce]
    exact hr
  refine ⟨h1, ?_⟩
  cases hd : drain dec s.k2u s.received false with
  | none => rw [poll_eq_none dec s hd] at hp; cases hp
  | some out =>
      obtain ⟨recv, k2u, any⟩ := out
      rw [poll_eq_some dec s recv k2u any hd] at hp
      have hpr := Option.some_inj.mp hp
      subst hpr
      exact drain_provenance dec s.k2u s.received false (recv, k2u, any)
        nonce v hd h1

/-- C1 witness: a mailbox with one inbound frame for id 7; after `poll`,
the receive step for id 7 resolves with the frame's decoded payload. -/
theorem c1_witness :
    lmGet prC1.state.received 7 = some (RResult.ok 9) ∧
      (lmGet sC1.received 7 = some (RResult.ok 9) ∨
        ∃ f ∈ sC1.k2u, 4 ≤ f.length ∧ fromLeBytes (f.take 4) = 7 ∧
          decTest (f.drop 4) = some (RResult.ok 9)) :=
  c1_id_correlation decTest sC1 prC1 7 (RResult.ok 9) (by decide) (by decide)

/-- C2 counterexample: the claim says `poll` does not panic even for an
inbound frame shorter than 4 bytes.  On a 1-byte frame the
`assert!(msg.len() >= 4)` at line 83 fires: `poll` panics (modelled as
`none`). -/
theorem c2_counterexample :
    sC2short.k2u = [[0]] ∧ ([0] : List Nat).length < 4 ∧
      poll decTest sC2short = none := by decide

/-- C2 (amended): for inbound frames of length at least 4, `poll` does not
panic; a frame whose payload fails to decode is released and draining
continues exactly as if the malformed frame had not been there, so
subsequent well-formed frames are still processed. -/
theorem c2_malformed_resilience {Resp : Type}
    (dec : List Nat → Option (RResult Resp))
    (recv : LinearMap (RResult Resp)) (msg : List Nat)
    (rest : List (List Nat)) (any : Bool)
    (hlt : recv.length < 32) (hlen : 4 ≤ msg.length)
    (hdec : dec (msg.drop 4) = none)
    (hall : ∀ f ∈ rest, 4 ≤ f.length) :
    drain dec (msg :: rest) recv any = drain dec rest recv any ∧
      (drain dec (msg :: rest) recv any).isSome := by
  have hskip : drain dec (msg :: rest) recv any = drain dec rest recv any := by
    rw [drain_cons dec msg rest recv any hlt hlen, hdec]
  refine ⟨hskip, ?_⟩
  rw [hskip]
  exact drain_isSome dec rest recv any hall

/-- C2 witness: an undecodable 4-byte frame followed by a well-formed frame;
the drain skips the former and completes on the latter. -/
theorem c2_witness :
    drain decTest [[9, 9, 9, 9], [7, 0, 0, 0, 0, 9]] [] false =
        drain decTest [[7, 0, 0, 0, 0, 9]] [] false ∧
      (drain decTest [[9, 9, 9, 9], [7, 0, 0, 0, 0, 9]] [] false).isSome :=
  c2_malformed_resilience decTest [] [9, 9, 9, 9] [[7, 0, 0, 0, 0, 9]] false
    (by decide) (by decide) (by decide) (by decide)

/-- C3: inbound backpressure.  With the response table at its capacity of
32, `poll` performs zero insert or release operations: the table and the
inbound ring are returned untouched (the waiting frames are neither re-read
nor dropped), no receive waiter is woken, the table still holds at most 32
entries, and a `take` (the receive step) of any present id brings the table
back below capacity. -/
theorem c3_backpressure {Resp : Type}
    (dec : List Nat → Option (RResult Resp)) (s : SysState Resp)
    (pr : PollResult Resp) (k : Nat) (v : RResult Resp)
    (hcap : s.received.length = 32)
    (hk : lmGet s.received k = some v)
    (hp : poll dec s = some pr) :
    pr.state.received = s.received ∧ pr.state.k2u = s.k2u ∧
      pr.wokeRecv = false ∧ pr.state.received.length ≤ 32 ∧
      (recvStep k pr.state).2.received.length < 32 := by
  have hd : drain dec s.k2u s.received false =
      some (s.received, s.k2u, false) :=
    drain_at_capacity dec s.k2u s.received false (by omega)
  rw [poll_eq_some dec s s.received s.k2u false hd] at hp
  have hpr := Option.some_inj.mp hp
  have hrecv : pr.state.received = s.received := by rw [← hpr]
  have hk2 : pr.state.k2u = s.k2u := by rw [← hpr]
  have hwr : pr.wokeRecv = false := by rw [← hpr]
  refine ⟨hrecv, hk2, hwr, ?_, ?_⟩
  · rw [hrecv]
    omega
  · have hstep : (recvStep k pr.state).2.received =
        (lmRemove pr.state.received k).2 := rfl
    rw [hstep, hrecv]
    have hrem : (lmRemove s.received k).2.length + 1 = s.received.length :=
      lmRemove_length s.received k (by rw [hk]; rfl)
    omega

/-- C3 witness: a table holding exactly 32 entries and a pending inbound
frame; `poll` leaves everything in place and a `take` of id 0 frees a slot. -/
theorem c3_witness :
    prC3.state.received = sC3.received ∧ prC3.state.k2u = sC3.k2u ∧
      prC3.wokeRecv = false ∧ prC3.state.received.length ≤ 32 ∧
      (recvStep 0 prC3.state).2.received.length < 32 :=
  c3_backpressure decTest sC3 prC3 0 (RResult.ok 0) (by decide) (by decide)
    (by decide)

/-- C4 counterexample: the claim says a duplicate arrival's insert fails
silently and the stored entry is left unchanged.  With `Ok(1)` stored under
id 5 and an inbound frame for id 5 decoding to `Ok(2)`, `poll` replaces the
entry: `heapless::LinearMap::insert` overwrites the value of an existing
key. -/
theorem c4_counterexample :
    lmGet sC4.received 5 = some (RResult.ok 1) ∧
      poll decTest sC4 = some prC4 ∧
      lmGet prC4.state.received 5 = some (RResult.ok 2) ∧
      RResult.ok 2 ≠ RResult.ok 1 := by decide

/-- C4 (amended): when `poll` decodes an inbound frame whose CorrelationId
is already present in the table, the insert succeeds by replacing the stored
value in place — the duplicate overwrites, the earlier response is lost —
and the table's size and key-uniqueness are preserved: a given
CorrelationId still appears at most once at any time. -/
theorem c4_duplicate_overwrites {Resp : Type}
    (dec : List Nat → Option (RResult Resp)) (s : SysState Resp)
    (msg : List Nat) (n : Nat) (r v0 : RResult Resp) (pr : PollResult Resp)
    (hk2u : s.k2u = [msg]) (hlen : 4 ≤ msg.length)
    (hn : fromLeBytes (msg.take 4) = n) (hdec : dec (msg.drop 4) = some r)
    (hpres : lmGet s.received n = some v0)
    (hlt : s.received.length < 32)
    (hnd : (lmKeys s.received).Nodup)
    (hp : poll dec s = some pr) :
    pr.state.received = lmReplace s.received n r ∧
      lmGet pr.state.received n = some r ∧
      pr.state.received.length = s.received.length ∧
      (lmKeys pr.state.received).Nodup := by
  have hsome : (lmGet s.received n).isSome := by rw [hpres]; rfl
  have hins : lmInsertOk s.received n r = lmReplace s.received n r := by
    rw [lmInsertOk_eq, if_pos hsome]
  have hd : drain dec s.k2u s.received false =
      some (lmReplace s.received n r, [], true) := by
    rw [hk2u, drain_cons dec msg [] s.received false hlt hlen, hdec]
    show drain dec []
        (lmInsertOk s.received (fromLeBytes (msg.take 4)) r) true = _
    rw [hn, hins, drain_nil]
  rw [poll_eq_some dec s _ _ _ hd] at hp
  have hpr := Option.some_inj.mp hp
  subst hpr
  refine ⟨rfl, ?_, ?_, ?_⟩
  · exact lmGet_lmReplace_self s.received n r hsome
  · exact lmReplace_length s.received n r
  · rw [lmKeys_lmReplace]
    exact hnd

/-- C4 witness: the duplicate frame for id 5 overwrites the stored `Ok(1)`
with `Ok(2)`, keeping one entry and unique keys. -/
theorem c4_witness :
    prC4.state.received = lmReplace sC4.received 5 (RResult.ok 2) ∧
      lmGet prC4.state.received 5 = some (RResult.ok 2) ∧
      prC4.state.received.length = sC4.received.length ∧
      (lmKeys prC4.state.received).Nodup :=
  c4_duplicate_overwrites decTest sC4 [5, 0, 0, 0, 0, 2] 5 (RResult.ok 2)
    (RResult.ok 1) prC4 (by decide) (by decide) (by decide) (by decide)
    (by decide) (by decide) (by decide) (by decide)

/-- C5 counterexample: the claim says `poll` on an empty inbound ring is a
no-op for every prior state, including `InhibitSend = true`.  With the flag
set and the outbound ring non-full, `poll` on an empty inbound ring clears
the flag and wakes every `send_wait` waiter: a state change and a wakeup. -/
theorem c5_counterexample :
    sC5.k2u = [] ∧ sC5.inhibit_send = true ∧
      poll decTest sC5 = some prC5 ∧ prC5.wokeSend = true ∧
      prC5.state ≠ sC5 := by decide

/-- C5 (amended): `poll` on an empty inbound ring never wakes `recv_wait`
and leaves the table, rings and nonce unchanged; it is a complete no-op (no
wakeups, no state change), repeatable arbitrarily often, whenever
additionally `InhibitSend` is clear or the outbound grant probe fails —
while with the flag set and a successful probe it clears the flag and wakes
`send_wait`. -/
theorem c5_empty_poll_noop {Resp : Type}
    (dec : List Nat → Option (RResult Resp)) (s : SysState Resp)
    (hempty : s.k2u = [])
    (hcase : s.inhibit_send = false ∨ grantOk s.u2k 128 = false) :
    poll dec s = some { state := s, wokeRecv := false, wokeSend := false } := by
  have hd : drain dec s.k2u s.received false = some (s.received, [], false) := by
    rw [hempty, drain_nil]
  have hb : (s.inhibit_send && !grantOk s.u2k 128) = s.inhibit_send := by
    rcases hcase with hc | hc <;> simp [hc]
  have hw : (s.inhibit_send && grantOk s.u2k 128) = false := by
    rcases hcase with hc | hc <;> simp [hc]
  rw [poll_eq_some dec s s.received [] false hd, hb, hw, ← hempty]

/-- C5 witness: `poll` on the quiescent mailbox returns it unchanged with
no wakeups. -/
theorem c5_witness :
    poll decTest sBase =
      some { state := sBase, wokeRecv := false, wokeSend := false } :=
  c5_empty_poll_noop decTest sBase (by decide) (Or.inl (by decide))

/-- C6: `InhibitSend` transition invariant.  Across the mailbox's
operations, the flag goes false→true only inside `send`'s send phase on an
outbound grant failure, goes true→false only inside `poll` when the 128-byte
grant probe succeeds, is untouched by `send`'s committed and
encode-error outcomes, and is untouched by the receive step. -/
theorem c6_inhibit_transitions {Req Resp : Type} :
    (∀ (dec : List Nat → Option (RResult Resp)) (s : SysState Resp)
        (pr : PollResult Resp), poll dec s = some pr →
        pr.state.inhibit_send ≠ s.inhibit_send →
        s.inhibit_send = true ∧ pr.state.inhibit_send = false ∧
          grantOk s.u2k 128 = true) ∧
    (∀ (enc : Req → List Nat) (nonce : Nat) (msg : Req)
        (s s' : SysState Resp),
        sendAttempt enc nonce msg s = .suspended s' →
        s'.inhibit_send ≠ s.inhibit_send →
        s.inhibit_send = false ∧ s'.inhibit_send = true ∧
          grantOk s.u2k 128 = false) ∧
    (∀ (enc : Req → List Nat) (nonce : Nat) (msg : Req)
        (s s' : SysState Resp),
        sendAttempt enc nonce msg s = .committed s' →
        s'.inhibit_send = s.inhibit_send) ∧
    (∀ (enc : Req → List Nat) (nonce : Nat) (msg : Req)
        (s s' : SysState Resp),
        sendAttempt enc nonce msg s = .encodeErr s' →
        s'.inhibit_send = s.inhibit_send) ∧
    (∀ (nonce : Nat) (s : SysState Resp),
        (recvStep nonce s).2.inhibit_send = s.inhibit_send) := by
  refine ⟨?_, ?_, ?_, ?_, fun nonce s => rfl⟩
  · intro dec s pr hp hne
    cases hd : drain dec s.k2u s.received false with
    | none => rw [poll_eq_none dec s hd] at hp; cases hp
    | some out =>
        obtain ⟨recv, k2u, any⟩ := out
        rw [poll_eq_some dec s recv k2u any hd] at hp
        have hpr := Option.some_inj.mp hp
        subst hpr
        simp only at hne ⊢
        cases hsi : s.inhibit_send <;> cases hg : grantOk s.u2k 128 <;>
          simp_all
  · intro enc nonce msg s s' h hne
    unfold sendAttempt at h
    by_cases hsi : s.inhibit_send = false
    · rw [if_pos hsi] at h
      by_cases hg : grantOk s.u2k 128 = true
      · rw [if_pos hg] at h
        by_cases hf : (enc msg).length ≤ 124
        · rw [if_pos hf] at h; simp at h
        · rw [if_neg hf] at h; simp at h
      · rw [if_neg hg] at h
        injection h with h'
        subst h'
        refine ⟨hsi, rfl, ?_⟩
        simpa using hg
    · rw [if_neg hsi] at h
      injection h with h'
      subst h'
      exact absurd rfl hne
  · intro enc nonce msg s s' h
    unfold sendAttempt at h
    by_cases hsi : s.inhibit_send = false
    · rw [if_pos hsi] at h
      by_cases hg : grantOk s.u2k 128 = true
      · rw [if_pos hg] at h
        by_cases hf : (enc msg).length ≤ 124
        · rw [if_pos hf] at h
          injection h with h'
          subst h'
          rfl
        · rw [if_neg hf] at h; simp at h
      · rw [if_neg hg] at h; simp at h
    · rw [if_neg hsi] at h; simp at h
  · intro enc nonce msg s s' h
    unfold sendAttempt at h
    by_cases hsi : s.inhibit_send = false
    · rw [if_pos hsi] at h
      by_cases hg : grantOk s.u2k 128 = true
      · rw [if_pos hg] at h
        by_cases hf : (enc msg).length ≤ 124
        · rw [if_pos hf] at h; simp at h
        · rw [if_neg hf] at h
          injection h with h'
          subst h'
          rfl
      · rw [if_neg hg] at h; simp at h
    · rw [if_neg hsi] at h; simp at h

/-- C6 witness: the poll conjunct at a concrete state with the flag set and
a roomy outbound ring: the observed transition is true→false with a
successful grant probe. -/
theorem c6_witness :
    sC5.inhibit_send = true ∧ prC5.state.inhibit_send = false ∧
      grantOk sC5.u2k 128 = true :=
  (@c6_inhibit_transitions (List Nat) Nat).1 decTest sC5 prC5 (by decide)
    (by decide)

/-- C7: a serialization failure is terminal for the `send` call: the state
is returned exactly as it was (in particular the outbound ring commits no
frame and no byte), and the only way to reach the encode-error outcome is an
encoding larger than the 124 payload bytes of the grant.  The outcome being
`encodeErr` rather than `suspended` is the call returning the generic
failure through `?` instead of suspending on a wait queue. -/
theorem c7_encode_error_terminal {Req Resp : Type} (enc : Req → List Nat)
    (nonce : Nat) (msg : Req) (s s' : SysState Resp)
    (h : sendAttempt enc nonce msg s = .encodeErr s') :
    s' = s ∧ 124 < (enc msg).length ∧ s'.u2k.frames = s.u2k.frames ∧
      s'.u2k.used = s.u2k.used := by
  unfold sendAttempt at h
  by_cases hsi : s.inhibit_send = false
  · rw [if_pos hsi] at h
    by_cases hg : grantOk s.u2k 128 = true
    · rw [if_pos hg] at h
      by_cases hf : (enc msg).length ≤ 124
      · rw [if_pos hf] at h; simp at h
      · rw [if_neg hf] at h
        injection h with h'
        subst h'
        exact ⟨rfl, by omega, rfl, rfl⟩
    · rw [if_neg hg] at h; simp at h
  · rw [if_neg hsi] at h; simp at h

/-- C7 witness: a 125-byte request on the quiescent mailbox errs without
touching the ring. -/
theorem c7_witness :
    sBase = sBase ∧ 124 < (encTest bigReq).length ∧
      sBase.u2k.frames = sBase.u2k.frames ∧
      sBase.u2k.used = sBase.u2k.used :=
  c7_encode_error_terminal encTest 0 bigReq sBase sBase (by decide)

/-- C8: outbound frame wire format.  A successful send commits exactly one
frame of `4 + serialized_len` bytes: the 4-byte little-endian CorrelationId
followed by the serialized request; splitting the frame at 4 recovers both
parts, and decoding the prefix as `poll` does yields the very id that was
sent. -/
theorem c8_frame_format {Req Resp : Type} (enc : Req → List Nat)
    (nonce : Nat) (msg : Req) (s s' : SysState Resp)
    (hn : nonce < 4294967296)
    (h : sendAttempt enc nonce msg s = .committed s') :
    s'.u2k.frames = s.u2k.frames ++ [toLeBytes nonce ++ enc msg] ∧
      (toLeBytes nonce ++ enc msg).length = 4 + (enc msg).length ∧
      (toLeBytes nonce ++ enc msg).take 4 = toLeBytes nonce ∧
      (toLeBytes nonce ++ enc msg).drop 4 = enc msg ∧
      fromLeBytes ((toLeBytes nonce ++ enc msg).take 4) = nonce ∧
      s'.u2k.used = s.u2k.used + (4 + (enc msg).length) := by
  have hflen : (toLeBytes nonce ++ enc msg).length = 4 + (enc msg).length := by
    simp only [List.length_append, toLeBytes_length]
  have htake : (toLeBytes nonce ++ enc msg).take 4 = toLeBytes nonce := rfl
  have hdrop : (toLeBytes nonce ++ enc msg).drop 4 = enc msg := rfl
  unfold sendAttempt at h
  by_cases hsi : s.inhibit_send = false
  · rw [if_pos hsi] at h
    by_cases hg : grantOk s.u2k 128 = true
    · rw [if_pos hg] at h
      by_cases hf : (enc msg).length ≤ 124
      · rw [if_pos hf] at h
        injection h with h'
        subst h'
        refine ⟨rfl, hflen, htake, hdrop, ?_, ?_⟩
        · rw [htake]
          exact fromLeBytes_toLeBytes nonce hn
        · simp only [commitFrame, hflen]
      · rw [if_neg hf] at h; simp at h
    · rw [if_neg hg] at h; simp at h
  · rw [if_neg hsi] at h; simp at h

/-- C8 witness: sending request `[0, 9]` with id 7 commits the 6-byte frame
`[7,0,0,0,0,9]`, whose prefix decodes back to 7. -/
theorem c8_witness :
    sC8.u2k.frames = sBase.u2k.frames ++ [toLeBytes 7 ++ encTest [0, 9]] ∧
      (toLeBytes 7 ++ encTest [0, 9]).length = 4 + (encTest [0, 9]).length ∧
      (toLeBytes 7 ++ encTest [0, 9]).take 4 = toLeBytes 7 ∧
      (toLeBytes 7 ++ encTest [0, 9]).drop 4 = encTest [0, 9] ∧
      fromLeBytes ((toLeBytes 7 ++ encTest [0, 9]).take 4) = 7 ∧
      sC8.u2k.used = sBase.u2k.used + (4 + (encTest [0, 9]).length) :=
  c8_frame_format encTest 7 [0, 9] sBase sC8 (by decide) (by decide)

/-- C9: CorrelationId generation.  Ids issued by successive `send` calls
follow the strictly-increasing-modulo-wraparound successor law, and two
calls less than 2^32 apart never receive the same id. -/
theorem c9_nonce_properties {Resp : Type} (s : SysState Resp) (i j : Nat)
    (hn : s.nonce < 4294967296) (hij : i < j) (hw : j - i < 4294967296) :
    issuedNonce s (i + 1) = (issuedNonce s i + 1) % 4294967296 ∧
      issuedNonce s i ≠ issuedNonce s j := by
  have hi := issuedNonce_formula i s hn
  have hi1 := issuedNonce_formula (i + 1) s hn
  have hj := issuedNonce_formula j s hn
  constructor
  · rw [hi, hi1]; omega
  · rw [hi, hj]; omega

/-- C9 witness: from the quiescent mailbox, the first two issued ids obey
the successor law and differ. -/
theorem c9_witness :
    issuedNonce sBase 1 = (issuedNonce sBase 0 + 1) % 4294967296 ∧
      issuedNonce sBase 0 ≠ issuedNonce sBase 1 :=
  c9_nonce_properties sBase 0 1 (by decide) (by decide) (by decide)

/-- C10: the bounded maximum grant is 128 bytes (the literal passed to
`grant` both in `send` and in `poll`'s probe) of which 4 hold the id
prefix; a request whose encoding exceeds the remaining 124 bytes makes
`send` return the generic failure even when the ring has room, and such a
request is never committed. -/
theorem c10_oversize_request_fails {Req Resp : Type} (enc : Req → List Nat)
    (nonce : Nat) (msg : Req) (s s' : SysState Resp)
    (hbig : 124 < (enc msg).length)
    (hsi : s.inhibit_send = false) (hg : grantOk s.u2k 128 = true) :
    sendAttempt enc nonce msg s = .encodeErr s ∧
      sendAttempt enc nonce msg s ≠ .committed s' := by
  have he : sendAttempt enc nonce msg s = .encodeErr s := by
    unfold sendAttempt
    rw [if_pos hsi, if_pos hg, if_neg (by omega)]
  refine ⟨he, ?_⟩
  rw [he]
  simp

/-- C10 witness: the 125-byte request fails on the empty (fully free)
outbound ring and is not committed. -/
theorem c10_witness :
    sendAttempt encTest 0 bigReq sBase = .encodeErr sBase ∧
      sendAttempt encTest 0 bigReq sBase ≠ .committed sBase :=
  c10_oversize_request_fails encTest 0 bigReq sBase sBase (by decide)
    (by decide) (by decide)

end Mailbox
